import Mathlib

/-!
Verification of the citation-resolution and XML-serialization module
(`xml2rfc.go`) of the mmark document converter.

Byte sequences (Go `[]byte` / `string`) are modelled as `List Nat`;
every string literal appearing in the source is ASCII, where Unicode
code points coincide with UTF-8 bytes.
-/

set_option maxHeartbeats 1000000
set_option maxRecDepth 4000

namespace Mmark

/-- Bytes of an ASCII string, as natural numbers. -/
def asciiBytes (s : String) : List Nat := s.data.map Char.toNat

/-- The citation record, as used by `referenceFile` and
`countCitationsAndSort`: raw link token (bytes), draft sequence number
(`-1` is the "latest" sentinel), and the classification byte `typ`
(`'i'` = informative, `'n'` = normative). -/
structure citation where
  link : List Nat
  seq : Int
  typ : Nat

/-- URL where mmark can find the citations for I-Ds. -/
def CitationsID : List Nat := asciiBytes "http://xml2rfc.ietf.org/public/rfc/bibxml3/"

/-- URL where mmark can find the citations for RFCs. -/
def CitationsRFC : List Nat := asciiBytes "http://xml2rfc.ietf.org/public/rfc/bibxml/"

def referenceRFC : List Nat := asciiBytes "reference.RFC."

def referenceID : List Nat := asciiBytes "reference.I-D.draft-"

def referenceIDLatest : List Nat := asciiBytes "reference.I-D."

def ext : List Nat := asciiBytes ".xml"

/-- Go `fmt.Sprintf("%02d", n)`: decimal representation of `n`,
zero-padded to a minimum width of 2 (a minus sign counts toward the
width, so every negative number is already wide enough). -/
def sprintf02d (n : Int) : List Nat :=
  if 0 ≤ n ∧ n < 10 then asciiBytes "0" ++ asciiBytes (toString n)
  else asciiBytes (toString n)

/-- `referenceFile` creates a .xml filename for the citation `c`
(xml2rfc.go lines 36-52). -/
def referenceFile (c : citation) : List Nat :=
  if c.link.length < 4 then []
  else if c.link.take 3 = asciiBytes "RFC" then
    CitationsRFC ++ referenceRFC ++ c.link.drop 3 ++ ext
  else if c.link.take 3 = asciiBytes "I-D" then
    if c.seq ≠ -1 then
      CitationsID ++ referenceID ++ c.link.drop 4 ++ (asciiBytes "-" ++ sprintf02d c.seq) ++ ext
    else
      CitationsID ++ referenceIDLatest ++ c.link.drop 4 ++ ext
  else []

/-- Claim-side padding: a natural number rendered with all of its
decimal digits, zero-padded to at least two digits. -/
def padSeq (n : Nat) : List Nat :=
  if n < 10 then asciiBytes "0" ++ asciiBytes (toString n) else asciiBytes (toString n)

/-- Claim-side resolver, stated from the specification's words: empty
for short or unrecognized tokens; RFC base + "reference.RFC." + rest;
I-D latest form without "draft-"; I-D sequenced form with "draft-" and
the zero-padded sequence. -/
def resolveReferenceSpec (c : citation) : List Nat :=
  if c.link.length < 4 then []
  else if c.link.take 3 = asciiBytes "RFC" then
    CitationsRFC ++ asciiBytes "reference.RFC." ++ c.link.drop 3 ++ asciiBytes ".xml"
  else if c.link.take 3 = asciiBytes "I-D" then
    if c.seq = -1 then
      CitationsID ++ asciiBytes "reference.I-D." ++ c.link.drop 4 ++ asciiBytes ".xml"
    else
      CitationsID ++ asciiBytes "reference.I-D.draft-" ++ c.link.drop 4 ++
        asciiBytes "-" ++ padSeq c.seq.toNat ++ asciiBytes ".xml"
  else []

theorem toString_intCast (m : Nat) : toString ((m : Int)) = toString m := rfl

theorem toNat_intCast (m : Nat) : ((m : Int)).toNat = m := rfl

theorem sprintf02d_eq_padSeq (n : Int) (h : 0 ≤ n) : sprintf02d n = padSeq n.toNat := by
  obtain ⟨m, rfl⟩ := Int.eq_ofNat_of_zero_le h
  unfold sprintf02d padSeq
  rw [toString_intCast, toNat_intCast]
  by_cases hm : m < 10
  · rw [if_pos ⟨by omega, by omega⟩, if_pos hm]
  · rw [if_neg (by omega), if_neg hm]

/-- C1: `referenceFile` returns exactly the specified URL for every
citation: empty when the link is shorter than 4 bytes or its first 3
bytes are neither "RFC" nor "I-D"; the RFC form for an "RFC" prefix;
the latest I-D form (no "draft-") when the sequence is the sentinel
`-1`; the "draft-" form with the sequence zero-padded to at least two
decimal digits when a sequence number is present. -/
theorem referenceFile_eq_resolveReferenceSpec (c : citation) (h : -1 ≤ c.seq) :
    referenceFile c = resolveReferenceSpec c := by
  unfold referenceFile resolveReferenceSpec
  split
  · rfl
  · split
    · rw [referenceRFC, ext]
    · split
      · rcases eq_or_ne c.seq (-1) with hs | hs
        · rw [if_neg (by simp [hs]), if_pos hs, referenceIDLatest, ext]
        · have h0 : 0 ≤ c.seq := by omega
          rw [if_pos hs, if_neg hs, referenceID, ext, sprintf02d_eq_padSeq c.seq h0]
          simp [List.append_assoc]
      · rfl

/-- Witness for C1: the three example citations of the specification,
resolved concretely. -/
theorem referenceFile_eq_resolveReferenceSpec_witness :
    (-1 : Int) ≤ (2 : Int) ∧
      referenceFile ⟨asciiBytes "I-D.ietf-dane-openpgpkey", 2, 0⟩ =
        resolveReferenceSpec ⟨asciiBytes "I-D.ietf-dane-openpgpkey", 2, 0⟩ ∧
      referenceFile ⟨asciiBytes "I-D.ietf-dane-openpgpkey", 2, 0⟩ =
        asciiBytes "http://xml2rfc.ietf.org/public/rfc/bibxml3/reference.I-D.draft-ietf-dane-openpgpkey-02.xml" ∧
      referenceFile ⟨asciiBytes "RFC2119", -1, 0⟩ =
        asciiBytes "http://xml2rfc.ietf.org/public/rfc/bibxml/reference.RFC.2119.xml" ∧
      referenceFile ⟨asciiBytes "I-D.ietf-dane-openpgpkey", -1, 0⟩ =
        asciiBytes "http://xml2rfc.ietf.org/public/rfc/bibxml3/reference.I-D.ietf-dane-openpgpkey.xml" ∧
      referenceFile ⟨asciiBytes "XY", 5, 0⟩ = [] :=
  ⟨by decide,
   referenceFile_eq_resolveReferenceSpec ⟨asciiBytes "I-D.ietf-dane-openpgpkey", 2, 0⟩ (by decide),
   by decide, by decide, by decide, by decide⟩

/-- C4: for an I-D citation whose sequence has three or more decimal
digits (`100 ≤ seq`), the rendered sequence segment carries all of the
digits of `seq` (no truncation, no padding applied). -/
theorem referenceFile_big_seq (c : citation)
    (h3 : c.link.take 3 = asciiBytes "I-D") (h4 : ¬ c.link.length < 4)
    (hseq : 100 ≤ c.seq) :
    referenceFile c =
      CitationsID ++ referenceID ++ c.link.drop 4 ++
        (asciiBytes "-" ++ asciiBytes (toString c.seq)) ++ ext := by
  unfold referenceFile
  rw [if_neg h4, if_neg (by rw [h3]; decide), if_pos h3, if_pos (by omega)]
  unfold sprintf02d
  rw [if_neg (by omega)]

/-- Witness for C4: `{link:"I-D.x", sequence:123}` yields the segment
"-123", not "-23". -/
theorem referenceFile_big_seq_witness :
    (asciiBytes "I-D.x").take 3 = asciiBytes "I-D" ∧
      ¬ (asciiBytes "I-D.x").length < 4 ∧ (100 : Int) ≤ 123 ∧
      referenceFile ⟨asciiBytes "I-D.x", 123, 0⟩ =
        CitationsID ++ referenceID ++ (asciiBytes "I-D.x").drop 4 ++
          (asciiBytes "-" ++ asciiBytes (toString (123 : Int))) ++ ext ∧
      referenceFile ⟨asciiBytes "I-D.x", 123, 0⟩ =
        asciiBytes "http://xml2rfc.ietf.org/public/rfc/bibxml3/reference.I-D.draft-x-123.xml" :=
  ⟨by decide, by decide, by decide,
   referenceFile_big_seq ⟨asciiBytes "I-D.x", 123, 0⟩ (by decide) (by decide) (by decide),
   by decide⟩

/-- The entity-conversion table (xml2rfc.go lines 73-79): `<`, `>` and
`&` map to their named XML entities; quotes are intentionally absent. -/
def entityConvert (b : Nat) : Option (List Nat) :=
  if b = 60 then some (asciiBytes "&lt;")
  else if b = 62 then some (asciiBytes "&gt;")
  else if b = 38 then some (asciiBytes "&amp;")
  else none

/-- `writeEntity` (xml2rfc.go lines 81-89): scan `text` once, appending
to the buffer `out` either the entity replacement or the byte itself. -/
def writeEntity (out : List Nat) : List Nat → List Nat
  | [] => out
  | b :: r =>
    match entityConvert b with
    | some s => writeEntity (out ++ s) r
    | none => writeEntity (out ++ [b]) r

/-- Claim-side per-byte substitution for the entity encoder. -/
def escByte (b : Nat) : List Nat := (entityConvert b).getD [b]

theorem writeEntity_acc (out text : List Nat) :
    writeEntity out text = out ++ text.flatMap escByte := by
  induction text generalizing out with
  | nil => simp [writeEntity]
  | cons b r ih =>
    cases h : entityConvert b with
    | some s =>
      have hb : escByte b = s := by simp [escByte, h]
      simp only [writeEntity, h, ih, hb, List.flatMap_cons, List.append_assoc]
    | none =>
      have hb : escByte b = [b] := by simp [escByte, h]
      simp only [writeEntity, h, ih, hb, List.flatMap_cons, List.append_assoc,
        List.singleton_append, List.cons_append, List.nil_append]

theorem escByte_length (b : Nat) : 1 ≤ (escByte b).length := by
  unfold escByte entityConvert
  split
  · simp [asciiBytes]
  · split
    · simp [asciiBytes]
    · split
      · simp [asciiBytes]
      · simp

/-- C6: `writeEntity` performs the one-pass literal substitution
`<` ↦ `&lt;`, `>` ↦ `&gt;`, `&` ↦ `&amp;`, passing every other byte
through unchanged, and its output is at least as long as its input. -/
theorem writeEntity_spec (text : List Nat) :
    writeEntity [] text = text.flatMap escByte ∧
      text.length ≤ (writeEntity [] text).length := by
  have hlen : ∀ t : List Nat, (t.map (fun _ => (1 : Nat))).sum = t.length := by
    intro t
    induction t with
    | nil => rfl
    | cons b r ih => simp [ih, Nat.add_comm]
  constructor
  · rw [writeEntity_acc]; rfl
  · rw [writeEntity_acc, List.nil_append, List.length_flatMap]
    calc text.length = (text.map (fun _ => (1 : Nat))).sum := (hlen text).symm
      _ ≤ (text.map (List.length ∘ escByte)).sum :=
          List.sum_le_sum (fun b _ => escByte_length b)

/-- The two-state scan shared by `sanitizeXML` and `writeSanitizeXML`:
the bytes the scan keeps, starting in state `inTag`. `60` is `<` and
`62` is `>`. -/
def stripGo (inTag : Bool) : List Nat → List Nat
  | [] => []
  | b :: r =>
    if b = 60 then stripGo true r
    else if b = 62 then stripGo false r
    else if inTag then stripGo inTag r
    else b :: stripGo inTag r

/-- The loop of `sanitizeXML` (xml2rfc.go lines 92-110): scan `s` from
index `i`, compacting kept bytes in place at index `j`; returns the
mutated array and the final `j`. -/
def sanLoop (s : Array Nat) (inTag : Bool) (i j : Nat) : Array Nat × Nat :=
  if h : i < s.size then
    if s[i] = 60 then sanLoop s true (i + 1) j
    else if s[i] = 62 then sanLoop s false (i + 1) j
    else if inTag then sanLoop s inTag (i + 1) j
    else sanLoop (s.setD j s[i]) inTag (i + 1) (j + 1)
  else (s, j)
termination_by s.size - i
decreasing_by
  · omega
  · omega
  · omega
  · simp only [Array.size_setD]; omega

/-- `sanitizeXML` strips XML from a string; the in-place flavor. The
result models the bytes of the returned slice `s[:j]`. -/
def sanitizeXML (s : Array Nat) : List Nat :=
  let r := sanLoop s false 0 0
  r.1.toList.take r.2

/-- `writeSanitizeXML` (xml2rfc.go lines 114-129): the same scan,
appending each kept byte to the buffer `out`. -/
def writeSanLoop (out : List Nat) (inTag : Bool) : List Nat → List Nat
  | [] => out
  | b :: r =>
    if b = 60 then writeSanLoop out true r
    else if b = 62 then writeSanLoop out false r
    else if inTag then writeSanLoop out inTag r
    else writeSanLoop (out ++ [b]) inTag r

/-- `writeSanitizeXML` strips XML from a string and writes to `out`. -/
def writeSanitizeXML (out s : List Nat) : List Nat := writeSanLoop out false s

theorem writeSanLoop_acc (inTag : Bool) (l : List Nat) :
    ∀ out, writeSanLoop out inTag l = out ++ stripGo inTag l := by
  induction l generalizing inTag with
  | nil => intro out; simp [writeSanLoop, stripGo]
  | cons b r ih =>
    intro out
    by_cases h60 : b = 60
    · simp only [writeSanLoop, stripGo, if_pos h60, ih]
    · by_cases h62 : b = 62
      · simp only [writeSanLoop, stripGo, if_neg h60, if_pos h62, ih]
      · by_cases ht : inTag
        · simp only [writeSanLoop, stripGo, if_neg h60, if_neg h62, if_pos ht, ih]
        · simp only [writeSanLoop, stripGo, if_neg h60, if_neg h62, if_neg ht, ih,
            List.append_assoc, List.singleton_append]

theorem toList_setD (s : Array Nat) (j v : Nat) (h : j < s.size) :
    (s.setD j v).toList = s.toList.set j v := by
  unfold Array.setD
  rw [dif_pos h]
  simp

theorem take_succ_set (l : List Nat) (j : Nat) (v : Nat) (h : j < l.length) :
    (l.set j v).take (j + 1) = l.take j ++ [v] := by
  rw [List.set_eq_take_append_cons_drop, if_pos h]
  have hlen : (l.take j).length = j := by
    rw [List.length_take]; omega
  calc (l.take j ++ v :: l.drop (j + 1)).take (j + 1)
      = (l.take j ++ v :: l.drop (j + 1)).take ((l.take j).length + 1) := by rw [hlen]
    _ = l.take j ++ (v :: l.drop (j + 1)).take 1 := List.take_append 1
    _ = l.take j ++ [v] := by simp

theorem take_set_of_le (l : List Nat) (j k : Nat) (v : Nat) (h : k ≤ j) :
    (l.set j v).take k = l.take k := by
  by_cases hj : j < l.length
  · rw [List.set_eq_take_append_cons_drop, if_pos hj, List.take_append_eq_append_take]
    have hlen : (l.take j).length = j := by rw [List.length_take]; omega
    rw [hlen, List.take_take, min_eq_left h]
    have hk : k - j = 0 := by omega
    rw [hk]
    simp
  · rw [List.set_eq_take_append_cons_drop, if_neg hj]

/-- The compacting loop implements the two-state scan: the final index
is `j` plus the number of kept bytes, and the prefix of the mutated
array up to it is the untouched prefix `s[:j]` followed by the kept
bytes of the unscanned suffix. -/
theorem sanLoop_spec (s : Array Nat) (inTag : Bool) (i j : Nat)
    (hij : j ≤ i) (hi : i ≤ s.size) :
    (sanLoop s inTag i j).1.size = s.size ∧
      (sanLoop s inTag i j).2 = j + (stripGo inTag (s.toList.drop i)).length ∧
      (sanLoop s inTag i j).1.toList.take (sanLoop s inTag i j).2 =
        s.toList.take j ++ stripGo inTag (s.toList.drop i) := by
  induction s, inTag, i, j using sanLoop.induct with
  | case1 s inTag i j h h60 ih =>
    have hd : s.toList.drop i = 60 :: s.toList.drop (i + 1) := by
      rw [List.drop_eq_getElem_cons (by rw [Array.length_toList]; exact h),
        Array.getElem_toList h, h60]
    have hloop : sanLoop s inTag i j = sanLoop s true (i + 1) j := by
      rw [sanLoop]; simp [h, h60]
    have hstrip : stripGo inTag (60 :: s.toList.drop (i + 1)) =
        stripGo true (s.toList.drop (i + 1)) := by simp [stripGo]
    rw [hloop, hd, hstrip]
    exact ih (by omega) (by omega)
  | case2 s inTag i j h h60 h62 ih =>
    have hd : s.toList.drop i = s[i] :: s.toList.drop (i + 1) := by
      rw [List.drop_eq_getElem_cons (by rw [Array.length_toList]; exact h),
        Array.getElem_toList h]
    have hloop : sanLoop s inTag i j = sanLoop s false (i + 1) j := by
      rw [sanLoop]; simp [h, h60, h62]
    have hstrip : stripGo inTag (s[i] :: s.toList.drop (i + 1)) =
        stripGo false (s.toList.drop (i + 1)) := by simp [stripGo, h60, h62]
    rw [hloop, hd, hstrip]
    exact ih (by omega) (by omega)
  | case3 s i j h h60 h62 ih =>
    have hd : s.toList.drop i = s[i] :: s.toList.drop (i + 1) := by
      rw [List.drop_eq_getElem_cons (by rw [Array.length_toList]; exact h),
        Array.getElem_toList h]
    have hloop : sanLoop s true i j = sanLoop s true (i + 1) j := by
      rw [sanLoop]; simp [h, h60, h62]
    have hstrip : stripGo true (s[i] :: s.toList.drop (i + 1)) =
        stripGo true (s.toList.drop (i + 1)) := by simp [stripGo, h60, h62]
    rw [hloop, hd, hstrip]
    exact ih (by omega) (by omega)
  | case4 s inTag i j h h60 h62 ht ih =>
    have hj : j < s.size := by omega
    have hjl : j < s.toList.length := by rw [Array.length_toList]; exact hj
    have hd : s.toList.drop i = s[i] :: s.toList.drop (i + 1) := by
      rw [List.drop_eq_getElem_cons (by rw [Array.length_toList]; exact h),
        Array.getElem_toList h]
    have hset : (s.setD j s[i]).toList = s.toList.set j s[i] := toList_setD s j s[i] hj
    have hsz : (s.setD j s[i]).size = s.size := Array.size_setD s j s[i]
    obtain ⟨ih1, ih2, ih3⟩ := ih (by omega) (by rw [hsz]; omega)
    have hloop : sanLoop s inTag i j = sanLoop (s.setD j s[i]) inTag (i + 1) (j + 1) := by
      rw [sanLoop]; simp [h, h60, h62, ht]
    have hstrip : stripGo inTag (s[i] :: s.toList.drop (i + 1)) =
        s[i] :: stripGo inTag (s.toList.drop (i + 1)) := by simp [stripGo, h60, h62, ht]
    rw [hloop, hd, hstrip]
    refine ⟨by rw [ih1, hsz], ?_, ?_⟩
    · rw [ih2, hset, List.drop_set, if_pos (by omega)]
      simp
      omega
    · rw [ih3, hset, List.drop_set, if_pos (by omega), take_succ_set s.toList j s[i] hjl]
      simp [List.append_assoc]
  | case5 s inTag i j h =>
    have hieq : i = s.size := by omega
    have hd : s.toList.drop i = [] := by
      rw [hieq, ← Array.length_toList, List.drop_length]
    have hloop : sanLoop s inTag i j = (s, j) := by
      rw [sanLoop]; simp [h]
    rw [hloop, hd]
    simp [stripGo]

/-- The in-place stripper equals the two-state scan. -/
theorem sanitizeXML_eq_stripGo (s : Array Nat) :
    sanitizeXML s = stripGo false s.toList := by
  obtain ⟨h1, h2, h3⟩ := sanLoop_spec s false 0 0 (Nat.le_refl 0) (Nat.zero_le _)
  unfold sanitizeXML
  rw [h3]
  simp

/-- Drop bytes up to and including the next `>` (byte 62); everything
when there is none. -/
def dropTag : List Nat → List Nat
  | [] => []
  | b :: r => if b = 62 then r else dropTag r

theorem dropTag_length (l : List Nat) : (dropTag l).length ≤ l.length := by
  induction l with
  | nil => simp [dropTag]
  | cons b r ih =>
    by_cases h : b = 62
    · simp [dropTag, h]
    · simp only [dropTag, if_neg h, List.length_cons]
      omega

/-- The amended claim-side stripper: every span from a `<` to the next
`>` is removed with its delimiters (everything after a final unmatched
`<` is removed), a `>` outside any span is dropped as well, and every
other byte is copied in order. -/
def specStrip : List Nat → List Nat
  | [] => []
  | b :: r =>
    if b = 60 then specStrip (dropTag r)
    else if b = 62 then specStrip r
    else b :: specStrip r
termination_by l => l.length
decreasing_by
  · have := dropTag_length r
    simp only [List.length_cons]
    omega
  · simp only [List.length_cons]
    omega
  · simp only [List.length_cons]
    omega

/-- The stripper exactly as claim C2 states it: tag spans are removed,
the tail after a final unmatched `<` is removed, and every byte outside
all tag spans — including a stray `>` — is copied in order. -/
def claimStrip : List Nat → List Nat
  | [] => []
  | b :: r =>
    if b = 60 then claimStrip (dropTag r)
    else b :: claimStrip r
termination_by l => l.length
decreasing_by
  · have := dropTag_length r
    simp only [List.length_cons]
    omega
  · simp only [List.length_cons]
    omega

theorem stripGo_eq_specStrip (l : List Nat) :
    stripGo false l = specStrip l ∧ stripGo true l = specStrip (dropTag l) := by
  induction l with
  | nil => simp [stripGo, specStrip, dropTag]
  | cons b r ih =>
    by_cases h60 : b = 60
    · constructor
      · simp only [stripGo, specStrip, if_pos h60]
        exact ih.2
      · simp only [stripGo, if_pos h60]
        rw [ih.2]
        have : dropTag (b :: r) = dropTag r := by
          simp [dropTag, h60]
        rw [this]
    · by_cases h62 : b = 62
      · constructor
        · simp only [stripGo, specStrip, if_neg h60, if_pos h62]
          exact ih.1
        · simp only [stripGo, if_neg h60, if_pos h62]
          rw [ih.1]
          have : dropTag (b :: r) = r := by simp [dropTag, h62]
          rw [this]
      · constructor
        · simp only [stripGo, specStrip, if_neg h60, if_neg h62, if_neg (Bool.false_ne_true)]
          rw [ih.1]
        · simp only [stripGo, if_neg h60, if_neg h62, if_pos rfl]
          rw [ih.2]
          have : dropTag (b :: r) = dropTag r := by simp [dropTag, h62]
          rw [this]
          simp

/-- Counterexample to C2 as stated: on the input consisting of the
single byte `>` (62), which contains no `<` and hence no tag span, the
code drops the `>` while the claim requires it to be copied. -/
theorem sanitizeXML_stray_gt_counterexample :
    sanitizeXML (Array.mk [62]) = [] ∧ claimStrip [62] = [62] ∧
      sanitizeXML (Array.mk [62]) ≠ claimStrip [62] := by
  have h1 : sanitizeXML (Array.mk [62]) = [] := by
    rw [sanitizeXML_eq_stripGo]
    rfl
  have h2 : claimStrip [62] = [62] := by
    rw [claimStrip]
    simp [claimStrip]
  exact ⟨h1, h2, by rw [h1, h2]; decide⟩

/-- C2 (amended): the stripped result of `sanitizeXML` equals the input
with every span from a `<` to the next `>` removed (delimiters
included), everything after a final unmatched `<` removed, every stray
`>` outside a tag span removed as well, and every remaining byte copied
unchanged and in order. -/
theorem sanitizeXML_eq_specStrip (s : Array Nat) :
    sanitizeXML s = specStrip s.toList := by
  rw [sanitizeXML_eq_stripGo]
  exact (stripGo_eq_specStrip s.toList).1

/-- C7: the in-place stripper and the sink-writing stripper produce
byte-identical output on every input. -/
theorem sanitizeXML_eq_writeSanitizeXML (s : Array Nat) :
    sanitizeXML s = writeSanitizeXML [] s.toList := by
  rw [sanitizeXML_eq_stripGo]
  unfold writeSanitizeXML
  rw [writeSanLoop_acc]
  rfl

theorem stripGo_no_delims (l : List Nat) (inTag : Bool) :
    ∀ b ∈ stripGo inTag l, ¬ b = 60 ∧ ¬ b = 62 := by
  induction l generalizing inTag with
  | nil => simp [stripGo]
  | cons b r ih =>
    by_cases h60 : b = 60
    · simp only [stripGo, if_pos h60]
      exact ih true
    · by_cases h62 : b = 62
      · simp only [stripGo, if_neg h60, if_pos h62]
        exact ih false
      · by_cases ht : inTag
        · simp only [stripGo, if_neg h60, if_neg h62, if_pos ht]
          exact ih inTag
        · simp only [stripGo, if_neg h60, if_neg h62, if_neg ht]
          intro c hc
          rcases List.mem_cons.mp hc with hc | hc
          · subst hc; exact ⟨h60, h62⟩
          · exact ih inTag c hc

theorem stripGo_of_clean (l : List Nat) (h : ∀ b ∈ l, ¬ b = 60 ∧ ¬ b = 62) :
    stripGo false l = l := by
  induction l with
  | nil => rfl
  | cons b r ih =>
    obtain ⟨h60, h62⟩ := h b (List.mem_cons_self b r)
    simp only [stripGo, if_neg h60, if_neg h62, if_neg (Bool.false_ne_true)]
    rw [ih (fun c hc => h c (List.mem_cons_of_mem b hc))]

/-- C8: the markup stripper is idempotent — stripping an already
stripped byte sequence returns it unchanged. -/
theorem sanitizeXML_idem (s : Array Nat) :
    sanitizeXML (Array.mk (sanitizeXML s)) = sanitizeXML s := by
  rw [sanitizeXML_eq_stripGo, sanitizeXML_eq_stripGo]
  have htl : (Array.mk (stripGo false s.toList) : Array Nat).toList = stripGo false s.toList := rfl
  rw [htl]
  exact stripGo_of_clean _ (stripGo_no_delims s.toList false)

/-- Go string `<`, extended to `≤`: lexicographic byte-wise order. -/
def bytesLe : List Nat → List Nat → Bool
  | [], _ => true
  | _ :: _, [] => false
  | a :: as, b :: bs => if a < b then true else if b < a then false else bytesLe as bs

theorem bytesLe_trans (x : List Nat) : ∀ y z : List Nat,
    bytesLe x y = true → bytesLe y z = true → bytesLe x z = true := by
  induction x with
  | nil => intro y z _ _; rfl
  | cons a as ih =>
    intro y z h1 h2
    cases y with
    | nil => exact absurd h1 (by simp [bytesLe])
    | cons b bs =>
      cases z with
      | nil => exact absurd h2 (by simp [bytesLe])
      | cons c cs =>
        simp only [bytesLe] at h1 h2 ⊢
        rcases Nat.lt_trichotomy a b with hab | hab | hab
        · rcases Nat.lt_trichotomy b c with hbc | hbc | hbc
          · rw [if_pos (by omega)]
          · rw [if_pos (by omega)]
          · rw [if_neg (by omega), if_pos (by omega)] at h2
            exact absurd h2 (by simp)
        · subst hab
          rw [if_neg (by omega), if_neg (by omega)] at h1
          rcases Nat.lt_trichotomy a c with hac | hac | hac
          · rw [if_pos hac]
          · subst hac
            rw [if_neg (by omega), if_neg (by omega)] at h2 ⊢
            exact ih bs cs h1 h2
          · rw [if_neg (by omega), if_pos (by omega)] at h2
            exact absurd h2 (by simp)
        · rw [if_neg (by omega), if_pos (by omega)] at h1
          exact absurd h1 (by simp)

theorem bytesLe_total (x : List Nat) : ∀ y : List Nat, bytesLe x y || bytesLe y x := by
  induction x with
  | nil => intro y; simp [bytesLe]
  | cons a as ih =>
    intro y
    cases y with
    | nil => simp [bytesLe]
    | cons b bs =>
      simp only [bytesLe]
      by_cases hab : a < b
      · simp [hab]
      · by_cases hba : b < a
        · simp [hab, hba]
        · simp only [if_neg hab, if_neg hba]
          simpa using ih bs

/-- `sort.Strings`: sort ascending in byte-wise lexicographic order. -/
def sortStrings (keys : List (List Nat)) : List (List Nat) := keys.mergeSort bytesLe

/-- The loop of `countCitationsAndSort` (xml2rfc.go lines 59-68): tally
informative (`'i'` = 105) and normative (`'n'` = 110) citations and
collect the keys. The Go map is modelled as an association list in an
arbitrary iteration order. -/
def countLoop : List (List Nat × citation) → Nat × Nat × List (List Nat)
  | [] => (0, 0, [])
  | (k, c) :: rest =>
    let r := countLoop rest
    ((if c.typ = 105 then r.1 + 1 else r.1),
     (if c.typ = 110 then r.2.1 + 1 else r.2.1),
     k :: r.2.2)

/-- `countCitationsAndSort` (xml2rfc.go lines 56-71): the number of
informative and normative references and the sorted key list. -/
def countCitationsAndSort (citations : List (List Nat × citation)) :
    Nat × Nat × List (List Nat) :=
  let r := countLoop citations
  (r.1, r.2.1, sortStrings r.2.2)

theorem countLoop_spec (cs : List (List Nat × citation)) :
    (countLoop cs).1 = (cs.filter (fun p => p.2.typ == 105)).length ∧
      (countLoop cs).2.1 = (cs.filter (fun p => p.2.typ == 110)).length ∧
      (countLoop cs).2.2 = cs.map Prod.fst := by
  induction cs with
  | nil => exact ⟨rfl, rfl, rfl⟩
  | cons p rest ih =>
    obtain ⟨k, c⟩ := p
    obtain ⟨ih1, ih2, ih3⟩ := ih
    refine ⟨?_, ?_, ?_⟩
    · by_cases h : c.typ = 105 <;> simp [countLoop, h, ih1, List.filter_cons]
    · by_cases h : c.typ = 110 <;> simp [countLoop, h, ih2, List.filter_cons]
    · simp [countLoop, ih3]

theorem classified_count (cs : List (List Nat × citation)) :
    (cs.filter (fun p => p.2.typ == 105)).length +
        (cs.filter (fun p => p.2.typ == 110)).length ≤ cs.length ∧
      ((cs.filter (fun p => p.2.typ == 105)).length +
          (cs.filter (fun p => p.2.typ == 110)).length = cs.length ↔
        ∀ p ∈ cs, p.2.typ = 105 ∨ p.2.typ = 110) := by
  induction cs with
  | nil => simp
  | cons p rest ih =>
    obtain ⟨ihle, ihiff⟩ := ih
    by_cases h1 : p.2.typ = 105
    · have e1 : (p :: rest).filter (fun q => q.2.typ == 105) =
          p :: rest.filter (fun q => q.2.typ == 105) := by
        simp [List.filter_cons, h1]
      have e2 : (p :: rest).filter (fun q => q.2.typ == 110) =
          rest.filter (fun q => q.2.typ == 110) := by
        simp [List.filter_cons, h1]
      rw [e1, e2, List.length_cons, List.length_cons, List.forall_mem_cons]
      refine ⟨by omega, ?_, ?_⟩
      · intro he
        exact ⟨Or.inl h1, ihiff.mp (by omega)⟩
      · rintro ⟨hp, hall⟩
        have := ihiff.mpr hall
        omega
    · by_cases h2 : p.2.typ = 110
      · have e1 : (p :: rest).filter (fun q => q.2.typ == 105) =
            rest.filter (fun q => q.2.typ == 105) := by
          simp [List.filter_cons, h2]
        have e2 : (p :: rest).filter (fun q => q.2.typ == 110) =
            p :: rest.filter (fun q => q.2.typ == 110) := by
          simp [List.filter_cons, h2]
        rw [e1, e2, List.length_cons, List.length_cons, List.forall_mem_cons]
        refine ⟨by omega, ?_, ?_⟩
        · intro he
          exact ⟨Or.inr h2, ihiff.mp (by omega)⟩
        · rintro ⟨hp, hall⟩
          have := ihiff.mpr hall
          omega
      · have e1 : (p :: rest).filter (fun q => q.2.typ == 105) =
            rest.filter (fun q => q.2.typ == 105) := by
          simp [List.filter_cons, h1]
        have e2 : (p :: rest).filter (fun q => q.2.typ == 110) =
            rest.filter (fun q => q.2.typ == 110) := by
          simp [List.filter_cons, h2]
        rw [e1, e2, List.length_cons, List.forall_mem_cons]
        refine ⟨by omega, ?_, ?_⟩
        · intro he
          exact absurd he (by omega)
        · rintro ⟨hp, hall⟩
          rcases hp with hc | hc
          · exact absurd hc h1
          · exact absurd hc h2

/-- C5: `countCitationsAndSort` returns the informative count, the
normative count, and all keys of the mapping sorted in byte-wise
lexicographic order: the key list is a permutation of the mapping's
keys of the same length, an unclassified citation counts toward
neither tally while its key stays listed, and the two counts sum to at
most the mapping's size with equality iff every citation is
classified. -/
theorem countCitationsAndSort_spec (cs : List (List Nat × citation)) :
    (countCitationsAndSort cs).1 = (cs.filter (fun p => p.2.typ == 105)).length ∧
      (countCitationsAndSort cs).2.1 = (cs.filter (fun p => p.2.typ == 110)).length ∧
      (countCitationsAndSort cs).2.2.length = cs.length ∧
      (countCitationsAndSort cs).2.2.Pairwise (fun x y => bytesLe x y = true) ∧
      (countCitationsAndSort cs).2.2.Perm (cs.map Prod.fst) ∧
      (countCitationsAndSort cs).1 + (countCitationsAndSort cs).2.1 ≤ cs.length ∧
      ((countCitationsAndSort cs).1 + (countCitationsAndSort cs).2.1 = cs.length ↔
        ∀ p ∈ cs, p.2.typ = 105 ∨ p.2.typ = 110) := by
  obtain ⟨h1, h2, h3⟩ := countLoop_spec cs
  obtain ⟨hle, hiff⟩ := classified_count cs
  have hperm : ((countLoop cs).2.2.mergeSort bytesLe).Perm (cs.map Prod.fst) := by
    rw [← h3]
    exact List.mergeSort_perm (countLoop cs).2.2 bytesLe
  refine ⟨h1, h2, ?_, ?_, hperm, ?_, ?_⟩
  · rw [show (countCitationsAndSort cs).2.2 = (countLoop cs).2.2.mergeSort bytesLe from rfl]
    rw [hperm.length_eq, List.length_map]
  · exact List.sorted_mergeSort (fun a b c => bytesLe_trans a b c) bytesLe_total _
  · rw [show (countCitationsAndSort cs).1 = (countLoop cs).1 from rfl,
      show (countCitationsAndSort cs).2.1 = (countLoop cs).2.1 from rfl, h1, h2]
    exact hle
  · rw [show (countCitationsAndSort cs).1 = (countLoop cs).1 from rfl,
      show (countCitationsAndSort cs).2.1 = (countLoop cs).2.1 from rfl, h1, h2]
    exact hiff

/-- Go `time.Month(m).String()`: the full English month name for
months 1-12, and the `%!Month(n)` fallback outside that range. -/
def monthString (m : Int) : String :=
  if m = 1 then "January" else if m = 2 then "February" else if m = 3 then "March"
  else if m = 4 then "April" else if m = 5 then "May" else if m = 6 then "June"
  else if m = 7 then "July" else if m = 8 then "August" else if m = 9 then "September"
  else if m = 10 then "October" else if m = 11 then "November" else if m = 12 then "December"
  else "%!Month(" ++ toString m ++ ")"

/-- `titleBlockTOMLDate` (xml2rfc.go lines 192-206), as a function of
the `Year()`, `Month()` and `Day()` accessor values of its `time.Time`
argument; returns the string written to `out`. -/
def titleBlockTOMLDate (year month day : Int) : String :=
  let y := if 0 < year then " year=\"" ++ toString year ++ "\"" else ""
  let m := if 0 < month then " month=\"" ++ monthString month ++ "\"" else ""
  let d := if 0 < day then " day=\"" ++ toString day ++ "\"" else ""
  "<date" ++ y ++ m ++ d ++ "/>\n\n"

/-- Claim-side table of full English month names (months 1-12). -/
def englishMonth (m : Int) : String :=
  if m = 1 then "January" else if m = 2 then "February" else if m = 3 then "March"
  else if m = 4 then "April" else if m = 5 then "May" else if m = 6 then "June"
  else if m = 7 then "July" else if m = 8 then "August" else if m = 9 then "September"
  else if m = 10 then "October" else if m = 11 then "November" else if m = 12 then "December"
  else ""

/-- Claim-side date element: each attribute omitted exactly when its
field is ≤ 0; a present month carries the full English month name. -/
def specDate (year month day : Int) : String :=
  "<date" ++ (if year ≤ 0 then "" else " year=\"" ++ toString year ++ "\"")
    ++ (if month ≤ 0 then "" else " month=\"" ++ englishMonth month ++ "\"")
    ++ (if day ≤ 0 then "" else " day=\"" ++ toString day ++ "\"") ++ "/>\n\n"

/-- C3: `titleBlockTOMLDate` emits one date element whose year, month
and day attributes are omitted exactly when the corresponding field is
≤ 0, and whose month attribute, when present, carries the full English
month name. The hypothesis `month ≤ 12` reflects the range of Go's
`time.Time.Month()`. -/
theorem titleBlockTOMLDate_spec (year month day : Int) (hm : month ≤ 12) :
    titleBlockTOMLDate year month day = specDate year month day := by
  simp only [titleBlockTOMLDate, specDate]
  have hy : (if 0 < year then " year=\"" ++ toString year ++ "\"" else "") =
      (if year ≤ 0 then "" else " year=\"" ++ toString year ++ "\"") := by
    rcases le_or_lt year 0 with h | h
    · rw [if_neg (by omega), if_pos h]
    · rw [if_pos h, if_neg (by omega)]
  have hd : (if 0 < day then " day=\"" ++ toString day ++ "\"" else "") =
      (if day ≤ 0 then "" else " day=\"" ++ toString day ++ "\"") := by
    rcases le_or_lt day 0 with h | h
    · rw [if_neg (by omega), if_pos h]
    · rw [if_pos h, if_neg (by omega)]
  have hmo : (if 0 < month then " month=\"" ++ monthString month ++ "\"" else "") =
      (if month ≤ 0 then "" else " month=\"" ++ englishMonth month ++ "\"") := by
    rcases le_or_lt month 0 with h | h
    · rw [if_neg (by omega), if_pos h]
    · rw [if_pos h, if_neg (by omega)]
      have hms : monthString month = englishMonth month := by
        interval_cases month <;> rfl
      rw [hms]
  rw [hy, hd, hmo]

/-- Witness for C3: the two example dates of the specification. -/
theorem titleBlockTOMLDate_spec_witness :
    (0 : Int) ≤ 12 ∧ titleBlockTOMLDate 0 0 0 = specDate 0 0 0 ∧
      titleBlockTOMLDate 0 0 0 = "<date/>\n\n" ∧
      (4 : Int) ≤ 12 ∧ titleBlockTOMLDate 1997 4 0 = specDate 1997 4 0 ∧
      titleBlockTOMLDate 1997 4 0 = "<date year=\"1997\" month=\"April\"/>\n\n" :=
  ⟨by decide, titleBlockTOMLDate_spec 0 0 0 (by decide), by decide,
   by decide, titleBlockTOMLDate_spec 1997 4 0 (by decide), by decide⟩

/-- The process-instruction record consumed by `titleBlockTOMLPI`. -/
structure pi where
  Toc : String
  Symrefs : String
  Sortrefs : String
  Compact : String
  Topblock : String
  Comments : String
  Subcompact : String
  Private : String
  Header : String
  Footer : String

/-- Modelled from the spec: the distinct "not set" sentinel used by the
header/footer process instructions. Its declaration lies outside the
provided sources; only its identity as a distinguished value matters. -/
def piNotSet : String := "__mmark_pi_not_set__"

/-- `yesno` (xml2rfc.go lines 256-264). -/
def yesno (s dflt : String) : String :=
  if s = "" then dflt
  else if s = "yes" then "yes"
  else "no"

/-- `titleBlockTOMLPI` (xml2rfc.go lines 218-254). The first component
is the returned string; the second collects the messages reported
through the diagnostic sink (`printf`, modelled from the spec as a
non-fatal reporting sink whose definition is outside the provided
sources). -/
def titleBlockTOMLPI (p : pi) (name : String) (version : Int) : String × List String :=
  if version = 2 then
    if name = "toc" then ("<?rfc toc=\"" ++ yesno p.Toc "yes" ++ "\"?>\n", [])
    else if name = "symrefs" then ("<?rfc symrefs=\"" ++ yesno p.Symrefs "yes" ++ "\"?>\n", [])
    else if name = "sortrefs" then ("<?rfc sortrefs=\"" ++ yesno p.Sortrefs "yes" ++ "\"?>\n", [])
    else if name = "compact" then ("<?rfc compact=\"" ++ yesno p.Compact "yes" ++ "\"?>\n", [])
    else if name = "topblock" then ("<?rfc topblock=\"" ++ yesno p.Topblock "yes" ++ "\"?>\n", [])
    else if name = "comments" then ("<?rfc comments=\"" ++ yesno p.Comments "no" ++ "\"?>\n", [])
    else if name = "subcompact" then ("<?rfc subcompact=\"" ++ yesno p.Subcompact "no" ++ "\"?>\n", [])
    else if name = "private" then ("<?rfc private=\"" ++ yesno p.Private "" ++ "\"?>\n", [])
    else if name = "header" then
      if p.Header = piNotSet then ("", [])
      else ("<?rfc header=\"" ++ p.Header ++ "\"?>\n", [])
    else if name = "footer" then
      if p.Footer = piNotSet then ("", [])
      else ("<?rfc footer=\"" ++ p.Footer ++ "\"?>\n", [])
    else ("", ["unhandled or unknown PI seen: " ++ name])
  else ("", [])

/-- C9: for target version 3 every name yields an empty result and no
diagnostic; for version 2 a header/footer whose value is the not-set
sentinel is omitted entirely; a name outside the enumerated set yields
an empty result plus one diagnostic through the sink — the function
never fails. -/
theorem titleBlockTOMLPI_spec (p : pi) (name : String) :
    titleBlockTOMLPI p name 3 = ("", []) ∧
      (p.Header = piNotSet → titleBlockTOMLPI p "header" 2 = ("", [])) ∧
      (p.Footer = piNotSet → titleBlockTOMLPI p "footer" 2 = ("", [])) ∧
      (name ∉ ["toc", "symrefs", "sortrefs", "compact", "topblock", "comments",
          "subcompact", "private", "header", "footer"] →
        titleBlockTOMLPI p name 2 = ("", ["unhandled or unknown PI seen: " ++ name])) := by
  refine ⟨by simp [titleBlockTOMLPI], ?_, ?_, ?_⟩
  · intro h
    simp [titleBlockTOMLPI, h]
  · intro h
    simp [titleBlockTOMLPI, h]
  · intro h
    simp only [List.mem_cons, List.not_mem_nil, or_false, not_or] at h
    obtain ⟨h1, h2, h3, h4, h5, h6, h7, h8, h9, h10⟩ := h
    simp [titleBlockTOMLPI, h1, h2, h3, h4, h5, h6, h7, h8, h9, h10]

/-- Witness for C9: a concrete record with header/footer unset, probed
at version 3, at header/footer, and at an unknown name. -/
theorem titleBlockTOMLPI_spec_witness :
    titleBlockTOMLPI ⟨"", "", "", "", "", "", "", "", piNotSet, piNotSet⟩ "bogus" 3 = ("", []) ∧
      titleBlockTOMLPI ⟨"", "", "", "", "", "", "", "", piNotSet, piNotSet⟩ "header" 2 = ("", []) ∧
      titleBlockTOMLPI ⟨"", "", "", "", "", "", "", "", piNotSet, piNotSet⟩ "footer" 2 = ("", []) ∧
      "bogus" ∉ ["toc", "symrefs", "sortrefs", "compact", "topblock", "comments",
          "subcompact", "private", "header", "footer"] ∧
      titleBlockTOMLPI ⟨"", "", "", "", "", "", "", "", piNotSet, piNotSet⟩ "bogus" 2 =
        ("", ["unhandled or unknown PI seen: bogus"]) := by
  obtain ⟨w1, w2, w3, w4⟩ :=
    titleBlockTOMLPI_spec ⟨"", "", "", "", "", "", "", "", piNotSet, piNotSet⟩ "bogus"
  refine ⟨w1, w2 rfl, w3 rfl, by decide, ?_⟩
  rw [w4 (by decide)]
  rfl

/-- Postal part of an author's address. -/
structure postal where
  Street : List Nat
  City : List Nat
  Code : List Nat
  Country : List Nat

/-- An author's address. -/
structure address where
  Postal : postal
  Phone : List Nat
  Email : List Nat
  Uri : List Nat

/-- The author record consumed by `titleBlockTOMLAuthor`. -/
structure author where
  Initials : List Nat
  Surname : List Nat
  Fullname : List Nat
  Organization : List Nat
  OrganizationAbbrev : List Nat
  Address : address

/-- Go `strings.Split` on a one-byte separator (`\n` = 10). -/
def splitByte (sep : Nat) : List Nat → List (List Nat)
  | [] => [[]]
  | b :: r =>
    match splitByte sep r with
    | [] => [[]]
    | p :: ps => if b = sep then [] :: p :: ps else (b :: p) :: ps

/-- One element per line: `<pre>` + entity-encoded item + `</post>`,
accumulated onto `out`; the shape of the street/city/country loops. -/
def tagFold (pre post : List Nat) (items : List (List Nat)) (out : List Nat) : List Nat :=
  items.foldl (fun o item => writeEntity (o ++ pre) item ++ post) out

/-- The code loop: the postal code is written raw (no entity encoding). -/
def codeFold (items : List (List Nat)) (out : List Nat) : List Nat :=
  items.foldl (fun o code => o ++ asciiBytes "<code>" ++ code ++ asciiBytes "</code>\n") out

/-- `titleBlockTOMLAuthor` (xml2rfc.go lines 132-189): the bytes
written to `out`, accumulated in source order. -/
def titleBlockTOMLAuthor (a : author) : List Nat :=
  let out := asciiBytes "<author"
  let out := out ++ asciiBytes " initials=\""
  let out := writeEntity out a.Initials
  let out := out ++ asciiBytes "\""
  let out := out ++ asciiBytes " surname=\""
  let out := writeEntity out a.Surname
  let out := out ++ asciiBytes "\""
  let out := out ++ asciiBytes " fullname=\""
  let out := writeEntity out a.Fullname
  let out := out ++ asciiBytes "\">\n"
  let abb := if a.OrganizationAbbrev ≠ [] then
      asciiBytes " abbrev=\"" ++ a.OrganizationAbbrev ++ asciiBytes "\"" else []
  let out := out ++ (asciiBytes "<organization" ++ abb ++ asciiBytes ">")
  let out := writeEntity out a.Organization
  let out := out ++ asciiBytes "</organization>\n"
  let out := out ++ asciiBytes "<address>\n"
  let out := out ++ asciiBytes "<postal>\n"
  let out := tagFold (asciiBytes "<street>") (asciiBytes "</street>\n")
      (splitByte 10 a.Address.Postal.Street) out
  let out := tagFold (asciiBytes "<city>") (asciiBytes "</city>\n")
      (splitByte 10 a.Address.Postal.City) out
  let out := codeFold (splitByte 10 a.Address.Postal.Code) out
  let out := tagFold (asciiBytes "<country>") (asciiBytes "</country>\n")
      (splitByte 10 a.Address.Postal.Country) out
  let out := out ++ asciiBytes "</postal>\n"
  let out := out ++ (asciiBytes "<phone>" ++ a.Address.Phone ++ asciiBytes "</phone>\n")
  let out := out ++ (asciiBytes "<email>" ++ a.Address.Email ++ asciiBytes "</email>\n")
  let out := out ++ (asciiBytes "<uri>" ++ a.Address.Uri ++ asciiBytes "</uri>\n")
  let out := out ++ asciiBytes "</address>\n"
  out ++ asciiBytes "</author>\n"

/-- The address-and-closing part of the author block, built on its own. -/
def authorTail (a : author) : List Nat :=
  let out := asciiBytes "<address>\n"
  let out := out ++ asciiBytes "<postal>\n"
  let out := tagFold (asciiBytes "<street>") (asciiBytes "</street>\n")
      (splitByte 10 a.Address.Postal.Street) out
  let out := tagFold (asciiBytes "<city>") (asciiBytes "</city>\n")
      (splitByte 10 a.Address.Postal.City) out
  let out := codeFold (splitByte 10 a.Address.Postal.Code) out
  let out := tagFold (asciiBytes "<country>") (asciiBytes "</country>\n")
      (splitByte 10 a.Address.Postal.Country) out
  let out := out ++ asciiBytes "</postal>\n"
  let out := out ++ (asciiBytes "<phone>" ++ a.Address.Phone ++ asciiBytes "</phone>\n")
  let out := out ++ (asciiBytes "<email>" ++ a.Address.Email ++ asciiBytes "</email>\n")
  let out := out ++ (asciiBytes "<uri>" ++ a.Address.Uri ++ asciiBytes "</uri>\n")
  let out := out ++ asciiBytes "</address>\n"
  out ++ asciiBytes "</author>\n"

theorem writeEntity_shift (o p s : List Nat) :
    writeEntity (o ++ p) s = o ++ writeEntity p s := by
  rw [writeEntity_acc, writeEntity_acc, List.append_assoc]

theorem tagFold_shift (pre post : List Nat) (l : List (List Nat)) :
    ∀ o p, tagFold pre post l (o ++ p) = o ++ tagFold pre post l p := by
  induction l with
  | nil => intro o p; rfl
  | cons x xs ih =>
    intro o p
    have hcons : ∀ out, tagFold pre post (x :: xs) out =
        tagFold pre post xs (writeEntity (out ++ pre) x ++ post) := fun _ => rfl
    rw [hcons, hcons, List.append_assoc, writeEntity_shift, List.append_assoc, ih]

theorem codeFold_shift (l : List (List Nat)) :
    ∀ o p, codeFold l (o ++ p) = o ++ codeFold l p := by
  induction l with
  | nil => intro o p; rfl
  | cons x xs ih =>
    intro o p
    have hcons : ∀ out, codeFold (x :: xs) out =
        codeFold xs (out ++ asciiBytes "<code>" ++ x ++ asciiBytes "</code>\n") := fun _ => rfl
    rw [hcons, hcons]
    rw [show (o ++ p) ++ asciiBytes "<code>" ++ x ++ asciiBytes "</code>\n" =
        o ++ (p ++ asciiBytes "<code>" ++ x ++ asciiBytes "</code>\n") by
      simp [List.append_assoc]]
    rw [ih]

/-- C10: when the organization abbreviation is non-empty it is written
verbatim into the abbrev attribute — not through the entity encoder —
while the initials, surname, fullname and organization fields all pass
through `writeEntity`. -/
theorem titleBlockTOMLAuthor_abbrev_raw (a : author) (h : a.OrganizationAbbrev ≠ []) :
    titleBlockTOMLAuthor a =
      asciiBytes "<author" ++ asciiBytes " initials=\"" ++ writeEntity [] a.Initials ++
      asciiBytes "\"" ++ asciiBytes " surname=\"" ++ writeEntity [] a.Surname ++
      asciiBytes "\"" ++ asciiBytes " fullname=\"" ++ writeEntity [] a.Fullname ++
      asciiBytes "\">\n" ++ asciiBytes "<organization" ++
      (asciiBytes " abbrev=\"" ++ a.OrganizationAbbrev ++ asciiBytes "\"") ++
      asciiBytes ">" ++ writeEntity [] a.Organization ++ asciiBytes "</organization>\n" ++
      authorTail a := by
  simp only [titleBlockTOMLAuthor, authorTail, if_pos h, writeEntity_shift, tagFold_shift,
    codeFold_shift, writeEntity_acc, List.append_assoc, List.nil_append, List.append_nil]

/-- Witness for C10: an author whose abbreviation is `<&>` renders it
literally inside `abbrev="..."`, while the organization `A & B` and the
initials `I<` are entity-encoded. -/
theorem titleBlockTOMLAuthor_abbrev_raw_witness :
    (⟨asciiBytes "I<", asciiBytes "S", asciiBytes "F", asciiBytes "A & B", asciiBytes "<&>",
        ⟨⟨[], [], [], []⟩, [], [], []⟩⟩ : author).OrganizationAbbrev ≠ [] ∧
      titleBlockTOMLAuthor
          ⟨asciiBytes "I<", asciiBytes "S", asciiBytes "F", asciiBytes "A & B", asciiBytes "<&>",
            ⟨⟨[], [], [], []⟩, [], [], []⟩⟩ =
        asciiBytes "<author initials=\"I&lt;\" surname=\"S\" fullname=\"F\">\n<organization abbrev=\"<&>\">A &amp; B</organization>\n<address>\n<postal>\n<street></street>\n<city></city>\n<code></code>\n<country></country>\n</postal>\n<phone></phone>\n<email></email>\n<uri></uri>\n</address>\n</author>\n" :=
  ⟨by decide, by
    rw [titleBlockTOMLAuthor_abbrev_raw _ (by decide)]
    decide⟩

end Mmark
